import Mathlib

/-!
Verification development for the content-addressed blob store in `src/main.py`
(aiohttp file server).  The storage engine is shallowly embedded:

* payloads are `List Nat` (byte values),
* the MD5 fingerprint function (`hashlib.md5(...).hexdigest()`) is embedded
  as an executable pure function `md5hex` over byte lists,
* filesystem paths are lists of components (`List Char` each); the Python
  `Path(...)` construction from slash-separated strings is embedded by
  `pathOf`, which splits on the slash character and drops empty components
  exactly as POSIX path resolution does,
* the filesystem is a `FS` record: an association list of regular files
  (path to contents) together with the list of existing directories,
* the handlers `upload_file`, `download_file`, `delete_file` and the
  context managers `tempfile` / `open_atomic` are embedded as state
  transformers over `FS`.  Points where the Python code would raise are
  modelled by explicit error results.
-/

set_option maxHeartbeats 1000000

set_option maxRecDepth 100000

/-- Fuelled list indexing with a default, used for the MD5 constant tables
and for byte access inside a block. -/
def nthD {α : Type} : List α → Nat → α → α
  | [], _, d => d
  | x :: _, 0, _ => x
  | _ :: xs, n + 1, d => nthD xs n d

/-! ## MD5 (the fingerprint function used by `upload_file`) -/

/-- 2^32, the modulus of all MD5 word arithmetic. -/
def m32 : Nat := 4294967296

def add32 (a b : Nat) : Nat := (a + b) % m32

/-- Bitwise complement on 32-bit words. -/
def not32 (x : Nat) : Nat := 4294967295 ^^^ x

/-- Left rotation of a 32-bit word. -/
def rotl32 (x s : Nat) : Nat := (x * 2 ^ s + x / 2 ^ (32 - s)) % m32

/-- The 64 MD5 sine-derived constants. -/
def md5K : List Nat :=
  [0xd76aa478, 0xe8c7b756, 0x242070db, 0xc1bdceee,
   0xf57c0faf, 0x4787c62a, 0xa8304613, 0xfd469501,
   0x698098d8, 0x8b44f7af, 0xffff5bb1, 0x895cd7be,
   0x6b901122, 0xfd987193, 0xa679438e, 0x49b40821,
   0xf61e2562, 0xc040b340, 0x265e5a51, 0xe9b6c7aa,
   0xd62f105d, 0x02441453, 0xd8a1e681, 0xe7d3fbc8,
   0x21e1cde6, 0xc33707d6, 0xf4d50d87, 0x455a14ed,
   0xa9e3e905, 0xfcefa3f8, 0x676f02d9, 0x8d2a4c8a,
   0xfffa3942, 0x8771f681, 0x6d9d6122, 0xfde5380c,
   0xa4beea44, 0x4bdecfa9, 0xf6bb4b60, 0xbebfbc70,
   0x289b7ec6, 0xeaa127fa, 0xd4ef3085, 0x04881d05,
   0xd9d4d039, 0xe6db99e5, 0x1fa27cf8, 0xc4ac5665,
   0xf4292244, 0x432aff97, 0xab9423a7, 0xfc93a039,
   0x655b59c3, 0x8f0ccc92, 0xffeff47d, 0x85845dd1,
   0x6fa87e4f, 0xfe2ce6e0, 0xa3014314, 0x4e0811a1,
   0xf7537e82, 0xbd3af235, 0x2ad7d2bb, 0xeb86d391]

/-- The 64 MD5 per-round rotation amounts. -/
def md5S : List Nat :=
  [7, 12, 17, 22, 7, 12, 17, 22, 7, 12, 17, 22, 7, 12, 17, 22,
   5, 9, 14, 20, 5, 9, 14, 20, 5, 9, 14, 20, 5, 9, 14, 20,
   4, 11, 16, 23, 4, 11, 16, 23, 4, 11, 16, 23, 4, 11, 16, 23,
   6, 10, 15, 21, 6, 10, 15, 21, 6, 10, 15, 21, 6, 10, 15, 21]

/-- The MD5 round function F/G/H/I, selected by the round index. -/
def md5F (i b c d : Nat) : Nat :=
  if i < 16 then (b &&& c) ||| (not32 b &&& d)
  else if i < 32 then (d &&& b) ||| (not32 d &&& c)
  else if i < 48 then b ^^^ c ^^^ d
  else c ^^^ (b ||| not32 d)

/-- The MD5 message-word schedule. -/
def md5G (i : Nat) : Nat :=
  if i < 16 then i
  else if i < 32 then (5 * i + 1) % 16
  else if i < 48 then (3 * i + 5) % 16
  else (7 * i) % 16

/-- Little-endian 32-bit word number `j` of a 64-byte block. -/
def wordAt (block : List Nat) (j : Nat) : Nat :=
  nthD block (4 * j) 0 + 256 * nthD block (4 * j + 1) 0
    + 65536 * nthD block (4 * j + 2) 0 + 16777216 * nthD block (4 * j + 3) 0

/-- The four-word MD5 state. -/
structure MDQuad where
  a : Nat
  b : Nat
  c : Nat
  d : Nat
deriving DecidableEq

/-- One MD5 round. -/
def md5Round (block : List Nat) (q : MDQuad) (i : Nat) : MDQuad :=
  let f := add32 (add32 (add32 q.a (md5F i q.b q.c q.d)) (nthD md5K i 0))
    (wordAt block (md5G i))
  ⟨q.d, add32 q.b (rotl32 f (nthD md5S i 0)), q.b, q.c⟩

/-- Process one 64-byte block. -/
def processBlock (q : MDQuad) (block : List Nat) : MDQuad :=
  let r := (List.range 64).foldl (md5Round block) q
  ⟨add32 q.a r.a, add32 q.b r.b, add32 q.c r.c, add32 q.d r.d⟩

/-- The standard MD5 initialisation vector. -/
def md5Start : MDQuad := ⟨0x67452301, 0xefcdab89, 0x98badcfe, 0x10325476⟩

/-- MD5 padding: a `0x80` byte, zeros to 56 mod 64, then the 64-bit
little-endian bit length. -/
def padMsg (msg : List Nat) : List Nat :=
  let len := msg.length
  let zeros := (119 - len % 64) % 64
  msg ++ [128] ++ List.replicate zeros 0
    ++ (List.range 8).map (fun i => len * 8 / 2 ^ (8 * i) % 256)

/-- Fold `processBlock` over the given number of 64-byte blocks. -/
def md5Blocks : Nat → List Nat → MDQuad → MDQuad
  | 0, _, q => q
  | n + 1, bytes, q => md5Blocks n (bytes.drop 64) (processBlock q (bytes.take 64))

/-- The four little-endian bytes of a 32-bit word. -/
def leBytes (w : Nat) : List Nat :=
  [w % 256, w / 256 % 256, w / 65536 % 256, w / 16777216 % 256]

/-- The 16-byte MD5 digest of a byte string. -/
def md5Digest (msg : List Nat) : List Nat :=
  let padded := padMsg msg
  let q := md5Blocks (padded.length / 64) padded md5Start
  leBytes q.a ++ leBytes q.b ++ leBytes q.c ++ leBytes q.d

/-- The sixteen lowercase hexadecimal digits. -/
def hexDigits : List Char := "0123456789abcdef".data

def hexDigit (n : Nat) : Char := nthD hexDigits n '0'

/-- Two lowercase hex characters of one byte, as in `%02x`. -/
def byteToHex (b : Nat) : List Char := [hexDigit (b / 16), hexDigit (b % 16)]

/-- `md5(body).hexdigest()` from `upload_file` (src/main.py line 105): the
32-character lowercase hexadecimal MD5 digest of a byte string. -/
def md5hex (msg : List Nat) : List Char := (md5Digest msg).flatMap byteToHex

/-! ## Paths -/

/-- A single path component. -/
abbrev Comp := List Char

/-- An absolute filesystem path as a list of components. -/
abbrev FsPath := List Comp

/-- Split a character list at every slash (keeping empty groups). -/
def splitSlash : List Char → List (List Char)
  | [] => [[]]
  | c :: cs =>
    if c = '/' then [] :: splitSlash cs
    else
      match splitSlash cs with
      | [] => [[c]]
      | g :: gs => (c :: g) :: gs

/-- The path denoted by a slash-separated string, as POSIX resolves it:
split on slashes and drop empty components. -/
def pathOf (s : List Char) : FsPath :=
  (splitSlash s).filter (fun g => !g.isEmpty)

/-! ## The filesystem model -/

/-- A filesystem state: regular files (path with contents, first entry
wins on lookup) and the set of existing directories. -/
structure FS where
  files : List (FsPath × List Nat)
  dirs : List FsPath
deriving DecidableEq

def FS.empty : FS := ⟨[], []⟩

/-- First-match association lookup among the files. -/
def lookupFirst : List (FsPath × List Nat) → FsPath → Option (List Nat)
  | [], _ => none
  | (q, d) :: rest, p => if q = p then some d else lookupFirst rest p

/-- Remove every entry with the given path. -/
def removeKey : List (FsPath × List Nat) → FsPath → List (FsPath × List Nat)
  | [], _ => []
  | (q, d) :: rest, p =>
    if q = p then removeKey rest p else (q, d) :: removeKey rest p

def FS.readFile (fs : FS) (p : FsPath) : Option (List Nat) :=
  lookupFirst fs.files p

abbrev FS.isFile (fs : FS) (p : FsPath) : Prop := (fs.readFile p).isSome

abbrev FS.isDir (fs : FS) (p : FsPath) : Prop := p ∈ fs.dirs

/-- `Path.exists()`: true for a regular file or a directory. -/
abbrev FS.pathExists (fs : FS) (p : FsPath) : Prop := fs.isFile p ∨ fs.isDir p

/-- Create or overwrite a regular file (`open(..., "wb")` plus write). -/
def FS.writeFile (fs : FS) (p : FsPath) (d : List Nat) : FS :=
  { fs with files := (p, d) :: removeKey fs.files p }

/-- `unlink` / `os.remove` of an existing file. -/
def FS.removeFile (fs : FS) (p : FsPath) : FS :=
  { fs with files := removeKey fs.files p }

/-- `os.remove` wrapped in the `except OSError` handler of `tempfile`
(src/main.py lines 46-53): a missing file (errno 2) is ignored. -/
def FS.removeIgnoreMissing (fs : FS) (p : FsPath) : FS :=
  if fs.isFile p then fs.removeFile p else fs

/-- `os.rename` / `Path.rename`: atomically move `src` to `dst`,
overwriting a regular file at `dst`. -/
def FS.rename (fs : FS) (src dst : FsPath) : FS :=
  match fs.readFile src with
  | none => fs
  | some d => (fs.removeFile src).writeFile dst d

/-- All nonempty prefixes of a path, shortest first. -/
def pathPrefixes (p : FsPath) : List FsPath :=
  (List.range p.length).map (fun i => p.take (i + 1))

/-- `Path.mkdir(parents=True)`: create the directory and every missing
ancestor. -/
def FS.mkdirParents (fs : FS) (p : FsPath) : FS :=
  { fs with
    dirs := (pathPrefixes p).filter (fun q => !decide (q ∈ fs.dirs)) ++ fs.dirs }

/-- `mkdir(parents=True)` raises when some prefix of the path is occupied
by a regular file. -/
abbrev mkdirBlocked (fs : FS) (p : FsPath) : Prop :=
  ∃ q ∈ pathPrefixes p, fs.isFile q

/-- The children a `Path.iterdir()` of `p` would list. -/
def FS.dirEntries (fs : FS) (p : FsPath) : List FsPath :=
  (fs.files.map Prod.fst ++ fs.dirs).filter (fun q => decide (q.dropLast = p))

/-- `Path.rmdir` (only invoked by the code on an empty directory). -/
def FS.rmdir (fs : FS) (p : FsPath) : FS :=
  { fs with dirs := fs.dirs.filter (fun q => !decide (q = p)) }

/-! ## `tempfile` / `open_atomic` (src/main.py lines 27-86) -/

/-- The path of the uniquely named temporary file that
`tempfile(dir=filepath.parent)` creates next to `filepath`. -/
def tmpPathOf (filepath : FsPath) (tempName : Comp) : FsPath :=
  filepath.dropLast ++ [tempName]

/-- Outcome of a context-managed block: normal completion, or an exception
propagating out, each with the filesystem state left behind. -/
inductive AtomicOut where
  | ok (fs : FS)
  | raised (fs : FS)
deriving DecidableEq

/-- `open_atomic(filepath, "wb")` around a body that either writes `data`
and returns (`body = some data`) or raises (`body = none`):

1. `tempfile(dir=filepath.parent)` creates an empty uniquely named file
   `tmppath` in the same directory as the target (raises if that
   directory does not exist);
2. the body runs, writing to `tmppath`;
3. on normal completion `tmppath` is renamed onto `filepath` (raises
   instead if a directory occupies `filepath`);
4. the `tempfile` context removes `tmppath` on every exit path, ignoring
   the error when it is already gone (errno 2). -/
def open_atomic (fs : FS) (filepath : FsPath) (tempName : Comp)
    (body : Option (List Nat)) : AtomicOut :=
  let tmppath := tmpPathOf filepath tempName
  if fs.isDir filepath.dropLast then
    let fs1 := fs.writeFile tmppath []
    match body with
    | none => AtomicOut.raised (fs1.removeIgnoreMissing tmppath)
    | some data =>
      let fs2 := fs1.writeFile tmppath data
      if fs2.isDir filepath then AtomicOut.raised (fs2.removeIgnoreMissing tmppath)
      else AtomicOut.ok ((fs2.rename tmppath filepath).removeIgnoreMissing tmppath)
  else AtomicOut.raised fs

/-! ## The route handlers (src/main.py lines 102-173) -/

/-- `Path(f"store/{file_hash[:2]}/")` of `upload_file` (line 107), a
relative path, resolved against the process working directory. -/
def uploadDirOf (cwd : FsPath) (file_hash : List Char) : FsPath :=
  cwd ++ pathOf ("store/".data ++ file_hash.take 2 ++ "/".data)

/-- `file_dir / file_hash`, the target path of the atomic write in
`upload_file` (line 111). -/
def uploadTargetOf (cwd : FsPath) (file_hash : List Char) : FsPath :=
  uploadDirOf cwd file_hash ++ pathOf file_hash

/-- `Path(os.getcwd(), f"store/{file_hash[:2]}/{file_hash}")` of
`download_file` (line 124). -/
def downloadPathOf (cwd : FsPath) (name : List Char) : FsPath :=
  cwd ++ pathOf ("store/".data ++ name.take 2 ++ "/".data ++ name)

/-- `Path(os.getcwd(), f"store/{file_hash[:2]}/{file_hash}")` of
`delete_file` (line 155). -/
def deletePathOf (cwd : FsPath) (name : List Char) : FsPath :=
  cwd ++ pathOf ("store/".data ++ name.take 2 ++ "/".data ++ name)

/-- What the Python code would raise or return at each exit of
`upload_file`: a successful run returns the new state and the hash. -/
inductive UploadErr where
  | mkdirFailed
  | writeFailed
deriving DecidableEq

/-- `upload_file` (src/main.py lines 102-118): hash the body, lazily
create the shard directory, atomically write the blob, return the hash.
`tempName` is the fresh temporary-file name chosen by `tempfile`. -/
def upload_file (cwd : FsPath) (tempName : Comp) (fs : FS) (body : List Nat) :
    Except UploadErr (FS × List Char) :=
  let file_hash := md5hex body
  let file_dir := uploadDirOf cwd file_hash
  let target := uploadTargetOf cwd file_hash
  let step : FS → Except UploadErr (FS × List Char) := fun fs1 =>
    match open_atomic fs1 target tempName (some body) with
    | AtomicOut.ok fs2 => Except.ok (fs2, file_hash)
    | AtomicOut.raised _ => Except.error UploadErr.writeFailed
  if fs.pathExists file_dir then step fs
  else if mkdirBlocked fs file_dir then Except.error UploadErr.mkdirFailed
  else step (fs.mkdirParents file_dir)

/-- A response of a handler: a `web.json_response` with a status and a
description, a `web.FileResponse` carrying the served bytes, or an
uncaught exception. -/
inductive Resp where
  | json (status : Nat) (description : List Char)
  | file (data : Option (List Nat))
  | raised
deriving DecidableEq

def respStatus : Resp → Option Nat
  | Resp.json s _ => some s
  | _ => none

/-- `web.HTTPNotFound.status_code`. -/
def httpNotFoundStatus : Nat := 404

/-- `web.HTTPBadRequest.status_code`. -/
def httpBadRequestStatus : Nat := 400

/-- Default status of `web.json_response`. -/
def jsonOkStatus : Nat := 200

/-- The apostrophe character, spelled by code point. -/
def charQuote : Char := Char.ofNat 39

/-- `f"File {file_hash} - not found!"`. -/
def notFoundDesc (h : List Char) : List Char :=
  "File ".data ++ h ++ " - not found!".data

/-- `f"File {file_hash} - was removed!"` with the hash quoted. -/
def removedDesc (h : List Char) : List Char :=
  "File ".data ++ [charQuote] ++ h ++ [charQuote] ++ " - was removed!".data

/-- The `delete_file` wrong-content-type message. -/
def contentTypeDesc : List Char :=
  "Content type must be ".data ++ [charQuote] ++ "json".data ++ [charQuote]
    ++ "!".data

/-- The `delete_file` missing-key message. -/
def nameKeyDesc : List Char :=
  "Key ".data ++ [charQuote] ++ "name".data ++ [charQuote]
    ++ " must be in request!".data

/-- `download_file` (src/main.py lines 121-132). -/
def download_file (cwd : FsPath) (fs : FS) (name : List Char) : Resp :=
  let file_path := downloadPathOf cwd name
  if fs.pathExists file_path then Resp.file (fs.readFile file_path)
  else Resp.json httpNotFoundStatus (notFoundDesc name)

/-- A DELETE request: its content type and its JSON object body. -/
structure DeleteReq where
  contentType : List Char
  body : List (List Char × List Char)
deriving DecidableEq

def appJson : List Char := "application/json".data

def nameKey : List Char := "name".data

/-- Dictionary lookup in the JSON body. -/
def lookupKey : List (List Char × List Char) → List Char → Option (List Char)
  | [], _ => none
  | (k, v) :: rest, key => if k = key then some v else lookupKey rest key

/-- `delete_file` (src/main.py lines 135-173): validate the request,
resolve the path, 400 if absent, else unlink and reclaim the shard
directory when it became empty. An unlink of a directory raises. -/
def delete_file (cwd : FsPath) (fs : FS) (req : DeleteReq) : FS × Resp :=
  if req.contentType ≠ appJson then
    (fs, Resp.json httpBadRequestStatus contentTypeDesc)
  else
    match lookupKey req.body nameKey with
    | none => (fs, Resp.json httpBadRequestStatus nameKeyDesc)
    | some file_hash =>
      let file_path := deletePathOf cwd file_hash
      if fs.pathExists file_path then
        if fs.isFile file_path then
          let fs1 := fs.removeFile file_path
          let fs2 :=
            if (fs1.dirEntries file_path.dropLast).isEmpty then
              fs1.rmdir file_path.dropLast
            else fs1
          (fs2, Resp.json jsonOkStatus (removedDesc file_hash))
        else (fs, Resp.raised)
      else (fs, Resp.json httpBadRequestStatus (notFoundDesc file_hash))

/-! ## Concrete fixtures used by witnesses and counterexamples -/

/-- The bytes of the payload `b"hello"`. -/
def helloBytes : List Nat := [104, 101, 108, 108, 111]

/-- The MD5 hex digest of "hello". -/
def helloHash : List Char := "5d41402abc4b2a76b9719d911017c592".data

/-- A well-formed but unused fingerprint: 32 zeros. -/
def zeros32 : List Char := "00000000000000000000000000000000".data

def tmpNameA : Comp := "tmpa".data

def tmpNameB : Comp := "tmpb".data

/-- The store state after uploading the empty payload into an empty root. -/
def fsAfterEmptyPut : FS :=
  match upload_file [] tmpNameA FS.empty [] with
  | Except.ok (f, _) => f
  | Except.error _ => FS.empty

/-- The store state after uploading `b"hello"` into an empty root. -/
def fsAfterHello : FS :=
  match upload_file [] tmpNameA FS.empty helloBytes with
  | Except.ok (f, _) => f
  | Except.error _ => FS.empty

/-- A state holding a stray file reachable through the malformed
fingerprint "a" (resolved path `store/a/a`). -/
def fsStray : FS :=
  ⟨[([ "store".data, "a".data, "a".data ], [7])],
   [["store".data], ["store".data, "a".data]]⟩

/-- A shard `store/ab` holding exactly the blob addressed by "ab". -/
def fsOneBlob : FS :=
  ⟨[([ "store".data, "ab".data, "ab".data ], [1])],
   [["store".data], ["store".data, "ab".data]]⟩

/-- A shard `store/ab` holding the blobs addressed by "ab" and "abc". -/
def fsTwoBlobs : FS :=
  ⟨[([ "store".data, "ab".data, "ab".data ], [1]),
    ([ "store".data, "ab".data, "abc".data ], [2])],
   [["store".data], ["store".data, "ab".data]]⟩

/-- A state with just the directory `a`, the parent of the atomic-write
target used in the C2 witness. -/
def fsDirA : FS := ⟨[], [["a".data]]⟩

/-- The committed state of the C2 witness run of `open_atomic`. -/
def fsDirACommit : FS :=
  match open_atomic fsDirA ["a".data, "b".data] "t".data (some [1]) with
  | AtomicOut.ok f => f
  | AtomicOut.raised f => f

/-! ## Helper lemmas: `nthD`, the digest, paths -/

theorem nthD_mem_or {α : Type} (l : List α) (n : Nat) (d : α) :
    nthD l n d ∈ l ∨ nthD l n d = d := by
  induction l generalizing n with
  | nil => right; cases n <;> rfl
  | cons x xs ih =>
    cases n with
    | zero => left; exact List.mem_cons_self x xs
    | succ n =>
      rcases ih n with hm | hd
      · left; exact List.mem_cons_of_mem x hm
      · right; exact hd

theorem hexDigit_mem (n : Nat) : hexDigit n ∈ hexDigits := by
  rcases nthD_mem_or hexDigits n '0' with hm | hd
  · exact hm
  · rw [hexDigit, hd]; decide

theorem flatMap_byteToHex_sub (l : List Nat) :
    ∀ c ∈ l.flatMap byteToHex, c ∈ hexDigits := by
  induction l with
  | nil => intro c hc; simp at hc
  | cons b bs ih =>
    intro c hc
    simp only [List.flatMap_cons, List.mem_append] at hc
    rcases hc with h1 | h2
    · simp only [byteToHex, List.mem_cons, List.not_mem_nil, or_false] at h1
      rcases h1 with rfl | rfl
      · exact hexDigit_mem _
      · exact hexDigit_mem _
    · exact ih c h2

theorem md5hex_mem_hexDigits (msg : List Nat) :
    ∀ c ∈ md5hex msg, c ∈ hexDigits :=
  flatMap_byteToHex_sub (md5Digest msg)

theorem length_flatMap_byteToHex (l : List Nat) :
    (l.flatMap byteToHex).length = 2 * l.length := by
  induction l with
  | nil => rfl
  | cons b bs ih =>
    simp only [List.flatMap_cons, List.length_append, ih, List.length_cons]
    simp [byteToHex]; omega

theorem md5Digest_length (msg : List Nat) : (md5Digest msg).length = 16 := by
  simp [md5Digest, leBytes]

theorem md5hex_length (msg : List Nat) : (md5hex msg).length = 32 := by
  rw [md5hex, length_flatMap_byteToHex, md5Digest_length]

theorem md5hex_ne_nil (msg : List Nat) : md5hex msg ≠ [] := by
  intro h
  have := md5hex_length msg
  rw [h] at this
  simp at this

theorem slash_not_mem_md5hex (msg : List Nat) : '/' ∉ md5hex msg := by
  intro h
  have := md5hex_mem_hexDigits msg '/' h
  revert this
  decide

theorem splitSlash_ne_nil (l : List Char) : splitSlash l ≠ [] := by
  induction l with
  | nil => simp [splitSlash]
  | cons c cs ih =>
    simp only [splitSlash]
    split
    · simp
    · cases h : splitSlash cs with
      | nil => exact absurd h ih
      | cons g gs => simp

theorem splitSlash_cons_slash (x : List Char) :
    splitSlash ('/' :: x) = [] :: splitSlash x := by
  simp [splitSlash]

theorem splitSlash_cons_ne (c : Char) (x : List Char) (hc : ¬ c = '/') :
    splitSlash (c :: x)
      = match splitSlash x with
        | [] => [[c]]
        | g :: gs => (c :: g) :: gs := by
  simp [splitSlash, hc]

theorem splitSlash_append (a b : List Char) :
    splitSlash (a ++ '/' :: b) = splitSlash a ++ splitSlash b := by
  induction a with
  | nil => simp [splitSlash]
  | cons c cs ih =>
    by_cases hc : c = '/'
    · subst hc
      rw [List.cons_append, splitSlash_cons_slash, splitSlash_cons_slash, ih]
      rfl
    · rw [List.cons_append, splitSlash_cons_ne c (cs ++ '/' :: b) hc,
        splitSlash_cons_ne c cs hc, ih]
      cases h : splitSlash cs with
      | nil => exact absurd h (splitSlash_ne_nil cs)
      | cons g gs => simp

theorem pathOf_append (a b : List Char) :
    pathOf (a ++ '/' :: b) = pathOf a ++ pathOf b := by
  simp [pathOf, splitSlash_append, List.filter_append]

theorem splitSlash_no_slash (l : List Char) (h : '/' ∉ l) :
    splitSlash l = [l] := by
  induction l with
  | nil => rfl
  | cons c cs ih =>
    have hc : ¬ c = '/' := fun e => h (by rw [e]; exact List.mem_cons_self _ _)
    have hcs : '/' ∉ cs := fun m => h (List.mem_cons_of_mem _ m)
    simp only [splitSlash, if_neg hc, ih hcs]

theorem pathOf_no_slash (l : List Char) (h : '/' ∉ l) (hne : l ≠ []) :
    pathOf l = [l] := by
  rw [pathOf, splitSlash_no_slash l h]
  cases l with
  | nil => exact absurd rfl hne
  | cons c cs => rfl

theorem pathOf_storePath (t h : List Char) :
    pathOf ("store/".data ++ t ++ "/".data ++ h)
      = "store".data :: (pathOf t ++ pathOf h) := by
  have e : "store/".data ++ t ++ "/".data ++ h
      = "store".data ++ '/' :: (t ++ '/' :: h) := by
    simp only [List.append_assoc]; rfl
  rw [e, pathOf_append]
  have e2 : pathOf "store".data = ["store".data] := by decide
  rw [pathOf_append, e2]
  rfl

theorem pathOf_storeDir (t : List Char) :
    pathOf ("store/".data ++ t ++ "/".data) = "store".data :: pathOf t := by
  have e : "store/".data ++ t ++ "/".data
      = "store".data ++ '/' :: (t ++ '/' :: ([] : List Char)) := by
    simp only [List.append_assoc]; rfl
  rw [e, pathOf_append]
  have e2 : pathOf "store".data = ["store".data] := by decide
  have e3 : pathOf ([] : List Char) = [] := rfl
  rw [pathOf_append, e2, e3, List.append_nil]
  rfl

theorem downloadPathOf_normal (cwd : FsPath) (h : List Char) :
    downloadPathOf cwd h = cwd ++ "store".data :: (pathOf (h.take 2) ++ pathOf h) := by
  rw [downloadPathOf, pathOf_storePath]

theorem uploadTargetOf_normal (cwd : FsPath) (h : List Char) :
    uploadTargetOf cwd h = cwd ++ "store".data :: (pathOf (h.take 2) ++ pathOf h) := by
  rw [uploadTargetOf, uploadDirOf, pathOf_storeDir]
  simp [List.append_assoc]

theorem uploadDirOf_normal (cwd : FsPath) (h : List Char) :
    uploadDirOf cwd h = cwd ++ "store".data :: pathOf (h.take 2) := by
  rw [uploadDirOf, pathOf_storeDir]

theorem downloadPathOf_eq_uploadTargetOf (cwd : FsPath) (h : List Char) :
    downloadPathOf cwd h = uploadTargetOf cwd h := by
  rw [downloadPathOf_normal, uploadTargetOf_normal]

theorem deletePathOf_eq_downloadPathOf (cwd : FsPath) (h : List Char) :
    deletePathOf cwd h = downloadPathOf cwd h := rfl

theorem take2_no_slash (h : List Char) (hs : '/' ∉ h) : '/' ∉ h.take 2 :=
  fun m => hs ((List.take_sublist 2 h).subset m)

theorem take2_ne_nil (h : List Char) (h2 : 2 ≤ h.length) : h.take 2 ≠ [] := by
  intro e
  have hl := congrArg List.length e
  rw [List.length_take] at hl
  simp only [List.length_nil] at hl
  omega

theorem downloadPathOf_resolved (cwd : FsPath) (h : List Char)
    (hs : '/' ∉ h) (h2 : 2 ≤ h.length) :
    downloadPathOf cwd h = cwd ++ ["store".data, h.take 2, h] := by
  have hne : h ≠ [] := by
    intro e; rw [e] at h2; simp at h2
  rw [downloadPathOf_normal,
    pathOf_no_slash _ (take2_no_slash h hs) (take2_ne_nil h h2),
    pathOf_no_slash h hs hne]
  rfl

theorem uploadTargetOf_md5 (cwd : FsPath) (msg : List Nat) :
    uploadTargetOf cwd (md5hex msg)
      = uploadDirOf cwd (md5hex msg) ++ [md5hex msg] := by
  rw [uploadTargetOf,
    pathOf_no_slash _ (slash_not_mem_md5hex msg) (md5hex_ne_nil msg)]

/-! ## Helper lemmas: filesystem operations -/

theorem lookupFirst_removeKey_self (l : List (FsPath × List Nat)) (p : FsPath) :
    lookupFirst (removeKey l p) p = none := by
  induction l with
  | nil => rfl
  | cons e rest ih =>
    obtain ⟨k, d⟩ := e
    by_cases hk : k = p
    · simpa [removeKey, hk] using ih
    · simp [removeKey, lookupFirst, hk, ih]

theorem lookupFirst_removeKey_ne (l : List (FsPath × List Nat)) (p q : FsPath)
    (h : q ≠ p) : lookupFirst (removeKey l p) q = lookupFirst l q := by
  induction l with
  | nil => rfl
  | cons e rest ih =>
    obtain ⟨k, d⟩ := e
    rw [removeKey]
    by_cases hk : k = p
    · rw [if_pos hk, ih, lookupFirst]
      have hkq : ¬ k = q := fun e => h (by rw [← e]; exact hk)
      rw [if_neg hkq]
    · rw [if_neg hk, lookupFirst, lookupFirst]
      by_cases hq : k = q
      · rw [if_pos hq, if_pos hq]
      · rw [if_neg hq, if_neg hq, ih]

theorem removeKey_eq_self (l : List (FsPath × List Nat)) (p : FsPath)
    (h : lookupFirst l p = none) : removeKey l p = l := by
  induction l with
  | nil => rfl
  | cons e rest ih =>
    obtain ⟨k, d⟩ := e
    by_cases hk : k = p
    · rw [lookupFirst, if_pos hk] at h
      exact absurd h (by simp)
    · rw [lookupFirst, if_neg hk] at h
      rw [removeKey, if_neg hk, ih h]

theorem map_fst_removeKey (l : List (FsPath × List Nat)) (p : FsPath) :
    (removeKey l p).map Prod.fst
      = (l.map Prod.fst).filter (fun q => !decide (q = p)) := by
  induction l with
  | nil => rfl
  | cons e rest ih =>
    obtain ⟨k, d⟩ := e
    by_cases hk : k = p
    · simp [removeKey, hk, List.filter, ih]
    · simp [removeKey, hk, List.filter, ih]

theorem mem_map_fst_of_lookup (l : List (FsPath × List Nat)) (p : FsPath)
    (d : List Nat) (h : lookupFirst l p = some d) : p ∈ l.map Prod.fst := by
  induction l with
  | nil => exact absurd h (by simp [lookupFirst])
  | cons e rest ih =>
    obtain ⟨k, d'⟩ := e
    by_cases hk : k = p
    · simp [hk]
    · rw [lookupFirst, if_neg hk] at h
      exact List.mem_cons_of_mem _ (ih h)

theorem countP_removeKey (l : List (FsPath × List Nat)) (p : FsPath) :
    (removeKey l p).countP (fun e => decide (e.1 = p)) = 0 := by
  induction l with
  | nil => rfl
  | cons e rest ih =>
    obtain ⟨k, d⟩ := e
    by_cases hk : k = p
    · simp [removeKey, hk, ih]
    · simp [removeKey, List.countP_cons, hk, ih]

theorem FS.readFile_writeFile_self (fs : FS) (p : FsPath) (d : List Nat) :
    (fs.writeFile p d).readFile p = some d := by
  simp [FS.writeFile, FS.readFile, lookupFirst]

theorem FS.readFile_writeFile_ne (fs : FS) (p q : FsPath) (d : List Nat)
    (h : q ≠ p) : (fs.writeFile p d).readFile q = fs.readFile q := by
  rw [FS.writeFile, FS.readFile, FS.readFile]
  show lookupFirst ((p, d) :: removeKey fs.files p) q = lookupFirst fs.files q
  rw [lookupFirst, if_neg (fun e => h e.symm), lookupFirst_removeKey_ne _ _ _ h]

theorem FS.readFile_removeFile_self (fs : FS) (p : FsPath) :
    (fs.removeFile p).readFile p = none :=
  lookupFirst_removeKey_self fs.files p

theorem FS.readFile_removeFile_ne (fs : FS) (p q : FsPath) (h : q ≠ p) :
    (fs.removeFile p).readFile q = fs.readFile q :=
  lookupFirst_removeKey_ne fs.files p q h

theorem FS.dirs_writeFile (fs : FS) (p : FsPath) (d : List Nat) :
    (fs.writeFile p d).dirs = fs.dirs := rfl

theorem FS.dirs_removeFile (fs : FS) (p : FsPath) :
    (fs.removeFile p).dirs = fs.dirs := rfl

theorem FS.dirs_rename (fs : FS) (src dst : FsPath) :
    (fs.rename src dst).dirs = fs.dirs := by
  rw [FS.rename]
  cases fs.readFile src <;> rfl

theorem FS.dirs_removeIgnoreMissing (fs : FS) (p : FsPath) :
    (fs.removeIgnoreMissing p).dirs = fs.dirs := by
  rw [FS.removeIgnoreMissing]
  split <;> rfl

theorem FS.readFile_removeIgnoreMissing_ne (fs : FS) (p q : FsPath)
    (h : q ≠ p) : (fs.removeIgnoreMissing p).readFile q = fs.readFile q := by
  rw [FS.removeIgnoreMissing]
  split
  · exact fs.readFile_removeFile_ne p q h
  · rfl

theorem FS.removeIgnoreMissing_of_absent (fs : FS) (p : FsPath)
    (h : fs.readFile p = none) : fs.removeIgnoreMissing p = fs := by
  rw [FS.removeIgnoreMissing, if_neg (by simp [FS.isFile, h])]

/-- The committed state of a successful `open_atomic` run. -/
theorem open_atomic_ok (fs : FS) (filepath : FsPath) (tempName : Comp)
    (data : List Nat) (hdir : fs.isDir filepath.dropLast)
    (hnd : ¬ fs.isDir filepath) :
    open_atomic fs filepath tempName (some data)
      = AtomicOut.ok
          ((((fs.writeFile (tmpPathOf filepath tempName) []).writeFile
              (tmpPathOf filepath tempName) data).rename
              (tmpPathOf filepath tempName) filepath).removeIgnoreMissing
            (tmpPathOf filepath tempName)) := by
  rw [open_atomic]
  simp only
  rw [if_pos hdir, if_neg (by simpa [FS.isDir] using hnd)]

/-- Reading the target after a successful `open_atomic` commit. -/
theorem open_atomic_ok_reads (fs : FS) (filepath : FsPath) (tempName : Comp)
    (data : List Nat) (fs2 : FS)
    (hne : tmpPathOf filepath tempName ≠ filepath)
    (hok : open_atomic fs filepath tempName (some data) = AtomicOut.ok fs2) :
    fs2.readFile filepath = some data
      ∧ fs2.readFile (tmpPathOf filepath tempName) = none
      ∧ (∀ q, q ≠ filepath → q ≠ tmpPathOf filepath tempName →
          fs2.readFile q = fs.readFile q)
      ∧ fs2.dirs = fs.dirs := by
  rw [open_atomic] at hok
  simp only at hok
  by_cases hdir : fs.isDir filepath.dropLast
  · rw [if_pos hdir] at hok
    by_cases htd : (((fs.writeFile (tmpPathOf filepath tempName) []).writeFile
        (tmpPathOf filepath tempName) data)).isDir filepath
    · rw [if_pos htd] at hok
      exact absurd hok (by simp)
    · rw [if_neg htd] at hok
      have hfs2 := (AtomicOut.ok.injEq _ _).mp hok
      subst hfs2
      set tmp := tmpPathOf filepath tempName with htmp
      set fsw := (fs.writeFile tmp []).writeFile tmp data with hfsw
      have hread : fsw.readFile tmp = some data := FS.readFile_writeFile_self _ _ _
      have hren : fsw.rename tmp filepath
          = (fsw.removeFile tmp).writeFile filepath data := by
        rw [FS.rename, hread]
      have h1 : ((fsw.removeFile tmp).writeFile filepath data).readFile tmp
          = none := by
        rw [FS.readFile_writeFile_ne _ _ _ _ hne, FS.readFile_removeFile_self]
      refine ⟨?_, ?_, ?_, ?_⟩
      · rw [FS.readFile_removeIgnoreMissing_ne _ _ _ (fun e => hne e.symm), hren,
          FS.readFile_writeFile_self]
      · rw [hren, FS.removeIgnoreMissing]
        split
        · exact FS.readFile_removeFile_self _ _
        · exact h1
      · intro q hq1 hq2
        rw [FS.readFile_removeIgnoreMissing_ne _ _ _ hq2, hren,
          FS.readFile_writeFile_ne _ _ _ _ hq1, FS.readFile_removeFile_ne _ _ _ hq2,
          hfsw, FS.readFile_writeFile_ne _ _ _ _ hq2,
          FS.readFile_writeFile_ne _ _ _ _ hq2]
      · rw [FS.dirs_removeIgnoreMissing, FS.dirs_rename]
        rfl
  · rw [if_neg hdir] at hok
    exact absurd hok (by simp)

theorem countP_writeFile_self (fs : FS) (p : FsPath) (d : List Nat) :
    (fs.writeFile p d).files.countP (fun e => decide (e.1 = p)) = 1 := by
  simp [FS.writeFile, List.countP_cons, countP_removeKey]

/-- Guard facts and the blob count extracted from a successful
`open_atomic` run. -/
theorem open_atomic_ok_more (fs : FS) (filepath : FsPath) (tempName : Comp)
    (data : List Nat) (fs2 : FS)
    (hne : tmpPathOf filepath tempName ≠ filepath)
    (hok : open_atomic fs filepath tempName (some data) = AtomicOut.ok fs2) :
    fs.isDir filepath.dropLast
    ∧ ¬ fs.isDir filepath
    ∧ fs2.files.countP (fun e => decide (e.1 = filepath)) = 1 := by
  rw [open_atomic] at hok
  simp only at hok
  by_cases hdir : fs.isDir filepath.dropLast
  · rw [if_pos hdir] at hok
    by_cases htd : (((fs.writeFile (tmpPathOf filepath tempName) []).writeFile
        (tmpPathOf filepath tempName) data)).isDir filepath
    · rw [if_pos htd] at hok
      exact absurd hok (by simp)
    · rw [if_neg htd] at hok
      have hfs2 := (AtomicOut.ok.injEq _ _).mp hok
      subst hfs2
      refine ⟨hdir, htd, ?_⟩
      set tmp := tmpPathOf filepath tempName with htmp
      set fsw := (fs.writeFile tmp []).writeFile tmp data with hfsw
      have hread : fsw.readFile tmp = some data := FS.readFile_writeFile_self _ _ _
      have hren : fsw.rename tmp filepath
          = (fsw.removeFile tmp).writeFile filepath data := by
        rw [FS.rename, hread]
      have h1 : ((fsw.removeFile tmp).writeFile filepath data).readFile tmp
          = none := by
        rw [FS.readFile_writeFile_ne _ _ _ _ hne, FS.readFile_removeFile_self]
      rw [hren, FS.removeIgnoreMissing_of_absent _ _ h1]
      exact countP_writeFile_self _ _ _
  · rw [if_neg hdir] at hok
    exact absurd hok (by simp)

/-- What a successful `upload_file` run guarantees, provided the fresh
temporary name differs from the hash (as `NamedTemporaryFile` ensures). -/
theorem upload_file_ok_spec (cwd : FsPath) (t : Comp) (fs fs1 : FS)
    (body : List Nat) (h : List Char)
    (ht : t ≠ md5hex body)
    (hup : upload_file cwd t fs body = Except.ok (fs1, h)) :
    h = md5hex body
    ∧ fs1.readFile (uploadTargetOf cwd (md5hex body)) = some body
    ∧ fs1.isDir (uploadDirOf cwd (md5hex body))
    ∧ ¬ fs1.isDir (uploadTargetOf cwd (md5hex body))
    ∧ fs1.files.countP
        (fun e => decide (e.1 = uploadTargetOf cwd (md5hex body))) = 1
    ∧ (∀ q, q ≠ uploadTargetOf cwd (md5hex body) →
        q ≠ tmpPathOf (uploadTargetOf cwd (md5hex body)) t →
        fs1.readFile q = fs.readFile q) := by
  have e1 : uploadTargetOf cwd (md5hex body)
      = uploadDirOf cwd (md5hex body) ++ [md5hex body] := uploadTargetOf_md5 cwd body
  have htd : (uploadTargetOf cwd (md5hex body)).dropLast
      = uploadDirOf cwd (md5hex body) := by
    rw [e1]; simp
  have htne : tmpPathOf (uploadTargetOf cwd (md5hex body)) t
      ≠ uploadTargetOf cwd (md5hex body) := by
    rw [tmpPathOf, htd, e1]
    intro e
    have h2 := List.append_cancel_left e
    exact ht (by simpa using h2)
  rw [upload_file] at hup
  simp only at hup
  by_cases hex : fs.pathExists (uploadDirOf cwd (md5hex body))
  · rw [if_pos hex] at hup
    cases ho : open_atomic fs (uploadTargetOf cwd (md5hex body)) t (some body) with
    | ok fs2 =>
      rw [ho] at hup
      simp only [Except.ok.injEq, Prod.mk.injEq] at hup
      obtain ⟨hfs, hhash⟩ := hup
      subst hfs
      subst hhash
      obtain ⟨hrt, hrtmp, hpres, hdirs⟩ :=
        open_atomic_ok_reads fs _ t body fs2 htne ho
      obtain ⟨hd1, hd2, hcnt⟩ := open_atomic_ok_more fs _ t body fs2 htne ho
      refine ⟨rfl, hrt, ?_, ?_, hcnt, hpres⟩
      · show uploadDirOf cwd (md5hex body) ∈ fs2.dirs
        rw [hdirs]
        rw [htd] at hd1
        exact hd1
      · show ¬ uploadTargetOf cwd (md5hex body) ∈ fs2.dirs
        rw [hdirs]
        exact hd2
    | raised fs2 =>
      rw [ho] at hup
      simp at hup
  · rw [if_neg hex] at hup
    by_cases hbl : mkdirBlocked fs (uploadDirOf cwd (md5hex body))
    · rw [if_pos hbl] at hup
      simp at hup
    · rw [if_neg hbl] at hup
      cases ho : open_atomic (fs.mkdirParents (uploadDirOf cwd (md5hex body)))
          (uploadTargetOf cwd (md5hex body)) t (some body) with
      | ok fs2 =>
        rw [ho] at hup
        simp only [Except.ok.injEq, Prod.mk.injEq] at hup
        obtain ⟨hfs, hhash⟩ := hup
        subst hfs
        subst hhash
        obtain ⟨hrt, hrtmp, hpres, hdirs⟩ :=
          open_atomic_ok_reads (fs.mkdirParents (uploadDirOf cwd (md5hex body)))
            _ t body fs2 htne ho
        obtain ⟨hd1, hd2, hcnt⟩ :=
          open_atomic_ok_more (fs.mkdirParents (uploadDirOf cwd (md5hex body)))
            _ t body fs2 htne ho
        refine ⟨rfl, hrt, ?_, ?_, hcnt, ?_⟩
        · show uploadDirOf cwd (md5hex body) ∈ fs2.dirs
          rw [hdirs]
          rw [htd] at hd1
          exact hd1
        · show ¬ uploadTargetOf cwd (md5hex body) ∈ fs2.dirs
          rw [hdirs]
          exact hd2
        · intro q hq1 hq2
          exact hpres q hq1 hq2
      | raised fs2 =>
        rw [ho] at hup
        simp at hup

theorem tmp_ne_target (cwd : FsPath) (body : List Nat) (t : Comp)
    (ht : t ≠ md5hex body) :
    tmpPathOf (uploadTargetOf cwd (md5hex body)) t
      ≠ uploadTargetOf cwd (md5hex body) := by
  have e1 : uploadTargetOf cwd (md5hex body)
      = uploadDirOf cwd (md5hex body) ++ [md5hex body] := uploadTargetOf_md5 cwd body
  have htd : (uploadTargetOf cwd (md5hex body)).dropLast
      = uploadDirOf cwd (md5hex body) := by
    rw [e1]; simp
  rw [tmpPathOf, htd, e1]
  intro e
  have h2 := List.append_cancel_left e
  exact ht (by simpa using h2)

theorem writeFile_then_remove (fs : FS) (p : FsPath) (d : List Nat)
    (h : fs.readFile p = none) : (fs.writeFile p d).removeFile p = fs := by
  cases fs with
  | mk files dirs =>
    rw [FS.writeFile, FS.removeFile]
    simp only [FS.mk.injEq, and_true]
    rw [removeKey, if_pos rfl,
      removeKey_eq_self _ _ (lookupFirst_removeKey_self files p),
      removeKey_eq_self _ _ h]

/-- `delete_file` on a request naming a present regular file: unlink, then
reclaim the shard directory exactly when it became empty. -/
theorem delete_file_present (cwd : FsPath) (fs : FS) (fp : List Char)
    (d : List Nat) (hf : fs.readFile (deletePathOf cwd fp) = some d) :
    delete_file cwd fs ⟨appJson, [(nameKey, fp)]⟩
      = (if ((fs.removeFile (deletePathOf cwd fp)).dirEntries
            (deletePathOf cwd fp).dropLast).isEmpty
         then (fs.removeFile (deletePathOf cwd fp)).rmdir
            (deletePathOf cwd fp).dropLast
         else fs.removeFile (deletePathOf cwd fp),
         Resp.json jsonOkStatus (removedDesc fp)) := by
  rw [delete_file, if_neg (fun hne => hne rfl)]
  have hlk : lookupKey [(nameKey, fp)] nameKey = some fp := by
    rw [lookupKey, if_pos rfl]
  rw [hlk]
  simp only
  rw [if_pos (Or.inl (by simp [FS.isFile, hf])), if_pos (by simp [FS.isFile, hf])]

/-- Removing the single blob of a shard leaves the shard listing empty. -/
theorem dirEntries_after_remove_single (fs : FS) (p : FsPath) (d : List Nat)
    (hf : fs.readFile p = some d)
    (hone : fs.dirEntries p.dropLast = [p]) :
    (fs.removeFile p).dirEntries p.dropLast = [] := by
  apply List.eq_nil_iff_forall_not_mem.mpr
  intro q hq
  have hq2 : q ∈ (removeKey fs.files p).map Prod.fst ++ fs.dirs
      ∧ decide (q.dropLast = p.dropLast) = true := List.mem_filter.mp hq
  obtain ⟨hmem, hpred⟩ := hq2
  have hdrop : q.dropLast = p.dropLast := of_decide_eq_true hpred
  rcases List.mem_append.mp hmem with hmf | hmd
  · rw [map_fst_removeKey] at hmf
    obtain ⟨hmf2, hne⟩ := List.mem_filter.mp hmf
    have hqp : ¬ q = p := by simpa using hne
    have hqe : q ∈ fs.dirEntries p.dropLast := by
      rw [FS.dirEntries]
      exact List.mem_filter.mpr
        ⟨List.mem_append.mpr (Or.inl hmf2), by simpa using hdrop⟩
    rw [hone] at hqe
    exact hqp (List.mem_singleton.mp hqe)
  · have hqe : q ∈ fs.dirEntries p.dropLast := by
      rw [FS.dirEntries]
      exact List.mem_filter.mpr
        ⟨List.mem_append.mpr (Or.inr hmd), by simpa using hdrop⟩
    rw [hone] at hqe
    have hqp : q = p := List.mem_singleton.mp hqe
    subst hqp
    have hpf : q ∈ fs.files.map Prod.fst := mem_map_fst_of_lookup _ _ _ hf
    have hcount : 2 ≤ (fs.dirEntries q.dropLast).count q := by
      rw [FS.dirEntries, List.count_filter (by simp), List.count_append]
      have c1 : 0 < (fs.files.map Prod.fst).count q :=
        List.count_pos_iff.mpr hpf
      have c2 : 0 < fs.dirs.count q := List.count_pos_iff.mpr hmd
      omega
    rw [hone] at hcount
    simp at hcount

/-- Behaviour of `download_file` and `delete_file` on any name whose
resolved path is absent: 404 from get, 400 from delete, state unchanged. -/
theorem absent_get_delete (cwd : FsPath) (fs : FS) (name : List Char)
    (hab : ¬ fs.pathExists (downloadPathOf cwd name)) :
    download_file cwd fs name
      = Resp.json httpNotFoundStatus (notFoundDesc name)
    ∧ delete_file cwd fs ⟨appJson, [(nameKey, name)]⟩
      = (fs, Resp.json httpBadRequestStatus (notFoundDesc name)) := by
  constructor
  · rw [download_file]
    rw [if_neg hab]
  · rw [delete_file, if_neg (fun hne => hne rfl)]
    have hlk : lookupKey [(nameKey, name)] nameKey = some name := by
      rw [lookupKey, if_pos rfl]
    rw [hlk]
    simp only
    rw [deletePathOf_eq_downloadPathOf, if_neg hab]

/-! ## The claims -/

/-- C8: the fingerprint function is a pure deterministic function of the
payload bytes (equal payloads give equal fingerprints, and the embedding
as a Lean function is stateless, so the value is the same across calls
and restarts), total over all byte sequences, and always yields a
non-empty fixed-length (32) string of lowercase hexadecimal digits. -/
theorem c8_fingerprint_function (p q : List Nat) (hpq : p = q) :
    md5hex p = md5hex q
    ∧ (md5hex p).length = 32
    ∧ md5hex p ≠ []
    ∧ (∀ c ∈ md5hex p, c ∈ hexDigits) :=
  ⟨by rw [hpq], md5hex_length p, md5hex_ne_nil p, md5hex_mem_hexDigits p⟩

theorem c8_fingerprint_function_w :
    md5hex [] = md5hex []
    ∧ (md5hex []).length = 32
    ∧ md5hex [] ≠ []
    ∧ (∀ c ∈ md5hex [], c ∈ hexDigits) :=
  c8_fingerprint_function [] [] rfl

/-- C9: a delete request whose content type is not application/json, or
whose JSON body lacks the key "name", gets a 400 BadRequest response and
the filesystem state is returned unchanged (nothing unlinked, no
directory removed). -/
theorem c9_delete_request_validation (cwd : FsPath) (fs : FS)
    (req : DeleteReq) :
    (req.contentType ≠ appJson →
      delete_file cwd fs req
        = (fs, Resp.json httpBadRequestStatus contentTypeDesc))
    ∧ (req.contentType = appJson → lookupKey req.body nameKey = none →
      delete_file cwd fs req
        = (fs, Resp.json httpBadRequestStatus nameKeyDesc)) := by
  constructor
  · intro hct
    rw [delete_file, if_pos hct]
  · intro hct hnk
    rw [delete_file, if_neg (fun hne => hne hct), hnk]

theorem c9_delete_request_validation_w :
    delete_file [] FS.empty ⟨"text/plain".data, []⟩
      = (FS.empty, Resp.json httpBadRequestStatus contentTypeDesc)
    ∧ delete_file [] FS.empty ⟨appJson, []⟩
      = (FS.empty, Resp.json httpBadRequestStatus nameKeyDesc) :=
  ⟨(c9_delete_request_validation [] FS.empty ⟨"text/plain".data, []⟩).1
      (by decide),
   (c9_delete_request_validation [] FS.empty ⟨appJson, []⟩).2 rfl rfl⟩

/-- C10: `upload_file` builds the relative path `store/<fp[:2]>/<fp>`,
while `download_file` and `delete_file` build
`Path(os.getcwd(), "store/<fp[:2]>/<fp>")`; for a fixed working directory
all three resolve the same on-disk path, and (for a fingerprint usable as
a path component) the shard directory component is exactly the first two
characters of the fingerprint. -/
theorem c10_path_resolution_agreement (cwd : FsPath) (h : List Char) :
    uploadTargetOf cwd h = downloadPathOf cwd h
    ∧ downloadPathOf cwd h = deletePathOf cwd h
    ∧ ('/' ∉ h → 2 ≤ h.length →
        downloadPathOf cwd h = cwd ++ ["store".data, h.take 2, h]
        ∧ uploadDirOf cwd h = cwd ++ ["store".data, h.take 2]) := by
  refine ⟨(downloadPathOf_eq_uploadTargetOf cwd h).symm,
    (deletePathOf_eq_downloadPathOf cwd h).symm, ?_⟩
  intro hs h2
  constructor
  · exact downloadPathOf_resolved cwd h hs h2
  · rw [uploadDirOf_normal,
      pathOf_no_slash _ (take2_no_slash h hs) (take2_ne_nil h h2)]

theorem c10_path_resolution_agreement_w :
    uploadTargetOf [] "ab".data = downloadPathOf [] "ab".data
    ∧ downloadPathOf [] "ab".data
      = [] ++ ["store".data, "ab".data.take 2, "ab".data] :=
  ⟨(c10_path_resolution_agreement [] "ab".data).1,
   ((c10_path_resolution_agreement [] "ab".data).2.2 (by decide) (by decide)).1⟩

/-- C4 counterexample: the code never rejects a malformed fingerprint.
The length-1 fingerprint "a" is malformed, yet `delete_file` resolves it
to `store/a/a`, deletes the file found there and answers 200: a
filesystem mutation, not an InvalidFingerprint rejection. -/
theorem c4_counterexample :
    ("a".data.length < 2 ∨ '/' ∈ "a".data)
    ∧ (delete_file [] fsStray ⟨appJson, [(nameKey, "a".data)]⟩).1 ≠ fsStray
    ∧ respStatus (delete_file [] fsStray ⟨appJson, [(nameKey, "a".data)]⟩).2
      = some jsonOkStatus :=
  ⟨by decide, by decide, by decide⟩

/-- C4 (amended): the code performs no fingerprint validation at all. A
malformed fingerprint (shorter than 2 characters or containing a slash)
is simply resolved to a path; when no file or directory exists at that
resolved path, get answers 404, delete answers 400, and neither mutates
the filesystem. (When something does exist there, delete will remove it,
as the counterexample shows.) -/
theorem c4_malformed_no_validation (cwd : FsPath) (fs : FS)
    (name : List Char) (_hmal : name.length < 2 ∨ '/' ∈ name)
    (hab : ¬ fs.pathExists (downloadPathOf cwd name)) :
    download_file cwd fs name
      = Resp.json httpNotFoundStatus (notFoundDesc name)
    ∧ delete_file cwd fs ⟨appJson, [(nameKey, name)]⟩
      = (fs, Resp.json httpBadRequestStatus (notFoundDesc name)) :=
  absent_get_delete cwd fs name hab

theorem c4_malformed_no_validation_w :
    download_file [] FS.empty "a".data
      = Resp.json httpNotFoundStatus (notFoundDesc "a".data)
    ∧ delete_file [] FS.empty ⟨appJson, [(nameKey, "a".data)]⟩
      = (FS.empty, Resp.json httpBadRequestStatus (notFoundDesc "a".data)) :=
  c4_malformed_no_validation [] FS.empty "a".data (by decide) (by decide)

/-- C5 counterexample: on a well-formed unused fingerprint the delete
handler does not report NotFound: its response status is
`web.HTTPBadRequest.status_code` (400), not
`web.HTTPNotFound.status_code` (404). -/
theorem c5_counterexample :
    respStatus (delete_file [] FS.empty ⟨appJson, [(nameKey, zeros32)]⟩).2
      = some httpBadRequestStatus
    ∧ httpBadRequestStatus ≠ httpNotFoundStatus :=
  ⟨by decide, by decide⟩

/-- C5 (amended): on a well-formed fingerprint whose resolved path holds
no file, `download_file` reports the missing blob with a 404 NotFound
response, while `delete_file` reports it with a 400 BadRequest response
(not 404); neither mutates any filesystem state. -/
theorem c5_unused_fingerprint (cwd : FsPath) (fs : FS) (name : List Char)
    (_hs : '/' ∉ name) (_h2 : 2 ≤ name.length)
    (hab : ¬ fs.pathExists (downloadPathOf cwd name)) :
    download_file cwd fs name
      = Resp.json httpNotFoundStatus (notFoundDesc name)
    ∧ delete_file cwd fs ⟨appJson, [(nameKey, name)]⟩
      = (fs, Resp.json httpBadRequestStatus (notFoundDesc name)) :=
  absent_get_delete cwd fs name hab

theorem c5_unused_fingerprint_w :
    download_file [] FS.empty zeros32
      = Resp.json httpNotFoundStatus (notFoundDesc zeros32)
    ∧ delete_file [] FS.empty ⟨appJson, [(nameKey, zeros32)]⟩
      = (FS.empty, Resp.json httpBadRequestStatus (notFoundDesc zeros32)) :=
  c5_unused_fingerprint [] FS.empty zeros32 (by decide) (by decide) (by decide)

/-- C1: whenever a put succeeds (with the fresh temporary name distinct
from the hash, as `NamedTemporaryFile` guarantees), a get of the returned
fingerprint on the resulting state serves exactly the uploaded bytes. -/
theorem c1_get_after_put (cwd : FsPath) (t : Comp) (fs fs1 : FS)
    (body : List Nat) (h : List Char)
    (ht : t ≠ md5hex body)
    (hup : upload_file cwd t fs body = Except.ok (fs1, h)) :
    download_file cwd fs1 h = Resp.file (some body) := by
  obtain ⟨hh, hrt, _, _, _, _⟩ := upload_file_ok_spec cwd t fs fs1 body h ht hup
  subst hh
  rw [download_file, downloadPathOf_eq_uploadTargetOf,
    if_pos (Or.inl (by simp [FS.isFile, hrt])), hrt]

theorem c1_get_after_put_w :
    download_file [] fsAfterEmptyPut (md5hex []) = Resp.file (some []) :=
  c1_get_after_put [] tmpNameA FS.empty fsAfterEmptyPut [] (md5hex [])
    (by decide) rfl

/-- C2: the `open_atomic` temporary file lives in the same directory as
the target; when the body raises before the rename, the target path is
untouched and the temporary file is removed (removal of an already-gone
temporary is not an error), leaving the state exactly as before; on
success the payload appears at the target via the rename, the temporary
is gone, and no other file or directory changes. -/
theorem c2_open_atomic_protocol (filepath : FsPath) (t : Comp) (fs : FS)
    (d : List Nat) :
    (tmpPathOf filepath t).dropLast = filepath.dropLast
    ∧ (¬ fs.pathExists (tmpPathOf filepath t) → fs.isDir filepath.dropLast →
        open_atomic fs filepath t none = AtomicOut.raised fs)
    ∧ (tmpPathOf filepath t ≠ filepath →
        ∀ fs2, open_atomic fs filepath t (some d) = AtomicOut.ok fs2 →
          fs2.readFile filepath = some d
          ∧ fs2.readFile (tmpPathOf filepath t) = none
          ∧ (∀ q, q ≠ filepath → q ≠ tmpPathOf filepath t →
              fs2.readFile q = fs.readFile q)
          ∧ fs2.dirs = fs.dirs) := by
  refine ⟨by rw [tmpPathOf]; simp, ?_, ?_⟩
  · intro hfresh hdir
    have hnof : fs.readFile (tmpPathOf filepath t) = none := by
      cases hr : fs.readFile (tmpPathOf filepath t) with
      | none => rfl
      | some v => exact absurd (Or.inl (by simp [FS.isFile, hr])) hfresh
    rw [open_atomic]
    simp only
    rw [if_pos hdir]
    have hif : (fs.writeFile (tmpPathOf filepath t) []).isFile
        (tmpPathOf filepath t) := by
      simp [FS.isFile, FS.readFile_writeFile_self]
    rw [FS.removeIgnoreMissing, if_pos hif,
      writeFile_then_remove fs _ [] hnof]
  · intro hne fs2 hok
    exact open_atomic_ok_reads fs filepath t d fs2 hne hok

theorem c2_open_atomic_protocol_w :
    open_atomic fsDirA ["a".data, "b".data] "t".data none
      = AtomicOut.raised fsDirA
    ∧ fsDirACommit.readFile ["a".data, "b".data] = some [1] :=
  ⟨(c2_open_atomic_protocol ["a".data, "b".data] "t".data fsDirA [1]).2.1
      (by decide) (by decide),
   ((c2_open_atomic_protocol ["a".data, "b".data] "t".data fsDirA [1]).2.2
      (by decide) fsDirACommit rfl).1⟩

/-- C3: a second put of the same payload (with fresh temporary names, as
`NamedTemporaryFile` guarantees) succeeds — it never fails because the
blob already exists — returns the same fingerprint, and leaves exactly
one blob at the resolved path. -/
theorem c3_put_idempotent (cwd : FsPath) (t1 t2 : Comp) (fs fs1 : FS)
    (body : List Nat) (h : List Char)
    (ht1 : t1 ≠ md5hex body) (ht2 : t2 ≠ md5hex body)
    (hup : upload_file cwd t1 fs body = Except.ok (fs1, h)) :
    h = md5hex body
    ∧ ∃ fs2, upload_file cwd t2 fs1 body = Except.ok (fs2, h)
        ∧ fs2.files.countP
            (fun e => decide (e.1 = uploadTargetOf cwd (md5hex body))) = 1 := by
  obtain ⟨hh, hrt, hdir1, hnd1, hcnt1, hpres⟩ :=
    upload_file_ok_spec cwd t1 fs fs1 body h ht1 hup
  subst hh
  have hdirT : fs1.isDir (uploadTargetOf cwd (md5hex body)).dropLast := by
    rw [uploadTargetOf_md5]
    simpa using hdir1
  have hok2 := open_atomic_ok fs1 (uploadTargetOf cwd (md5hex body)) t2 body
    hdirT hnd1
  apply And.intro rfl
  apply Exists.intro ((((fs1.writeFile (tmpPathOf (uploadTargetOf cwd (md5hex body)) t2) []).writeFile (tmpPathOf (uploadTargetOf cwd (md5hex body)) t2) body).rename (tmpPathOf (uploadTargetOf cwd (md5hex body)) t2) (uploadTargetOf cwd (md5hex body))).removeIgnoreMissing (tmpPathOf (uploadTargetOf cwd (md5hex body)) t2))
  refine ⟨?_, ?_⟩
  · rw [upload_file]
    simp only
    rw [if_pos (Or.inr hdir1), hok2]
  · exact (open_atomic_ok_more fs1 _ t2 body _
      (tmp_ne_target cwd body t2 ht2) hok2).2.2

theorem c3_put_idempotent_w :
    md5hex [] = md5hex []
    ∧ ∃ fs2, upload_file [] tmpNameB fsAfterEmptyPut []
        = Except.ok (fs2, md5hex [])
      ∧ fs2.files.countP
          (fun e => decide (e.1 = uploadTargetOf [] (md5hex []))) = 1 :=
  c3_put_idempotent [] tmpNameA tmpNameB FS.empty fsAfterEmptyPut []
    (md5hex []) (by decide) (by decide) rfl

/-- C6: deleting the only blob of a shard directory removes the shard
directory; deleting one of two blobs keeps the shard directory and the
other blob stays retrievable by get. -/
theorem c6_shard_reclamation :
    (∀ (cwd : FsPath) (fp : List Char) (fs : FS) (d : List Nat),
      fs.readFile (deletePathOf cwd fp) = some d →
      fs.dirEntries (deletePathOf cwd fp).dropLast = [deletePathOf cwd fp] →
      fs.readFile (deletePathOf cwd fp).dropLast = none →
      ¬ (delete_file cwd fs ⟨appJson, [(nameKey, fp)]⟩).1.pathExists
          (deletePathOf cwd fp).dropLast)
    ∧ (∀ (cwd : FsPath) (fp1 fp2 : List Char) (fs : FS) (d1 d2 : List Nat),
      fs.readFile (deletePathOf cwd fp1) = some d1 →
      fs.readFile (downloadPathOf cwd fp2) = some d2 →
      downloadPathOf cwd fp2 ≠ deletePathOf cwd fp1 →
      (downloadPathOf cwd fp2).dropLast = (deletePathOf cwd fp1).dropLast →
      fs.isDir (deletePathOf cwd fp1).dropLast →
      (delete_file cwd fs ⟨appJson, [(nameKey, fp1)]⟩).1.isDir
          (deletePathOf cwd fp1).dropLast
        ∧ download_file cwd (delete_file cwd fs ⟨appJson, [(nameKey, fp1)]⟩).1
            fp2 = Resp.file (some d2)) := by
  constructor
  · intro cwd fp fs d hf hone hnf
    have hemp : ((fs.removeFile (deletePathOf cwd fp)).dirEntries
        (deletePathOf cwd fp).dropLast).isEmpty = true := by
      rw [dirEntries_after_remove_single fs _ d hf hone]
      rfl
    have hdel : (delete_file cwd fs ⟨appJson, [(nameKey, fp)]⟩).1
        = (fs.removeFile (deletePathOf cwd fp)).rmdir
            (deletePathOf cwd fp).dropLast := by
      rw [delete_file_present cwd fs fp d hf, if_pos hemp]
    rw [hdel]
    intro hpe
    rcases hpe with hfil | hdir2
    · have hnone : (((fs.removeFile (deletePathOf cwd fp)).rmdir
          (deletePathOf cwd fp).dropLast)).readFile
            (deletePathOf cwd fp).dropLast = none := by
        show lookupFirst (removeKey fs.files (deletePathOf cwd fp))
          (deletePathOf cwd fp).dropLast = none
        by_cases hsp : (deletePathOf cwd fp).dropLast = deletePathOf cwd fp
        · rw [hsp]
          exact lookupFirst_removeKey_self _ _
        · rw [lookupFirst_removeKey_ne _ _ _ hsp]
          exact hnf
      simp [FS.isFile, hnone] at hfil
    · simpa using (List.mem_filter.mp hdir2).2
  · intro cwd fp1 fp2 fs d1 d2 hf1 hf2 hne hpar hdir
    have hp2mem : downloadPathOf cwd fp2
        ∈ (fs.removeFile (deletePathOf cwd fp1)).dirEntries
          (deletePathOf cwd fp1).dropLast := by
      rw [FS.dirEntries]
      apply List.mem_filter.mpr
      refine ⟨List.mem_append.mpr (Or.inl ?_), by simpa using hpar⟩
      show downloadPathOf cwd fp2
        ∈ (removeKey fs.files (deletePathOf cwd fp1)).map Prod.fst
      rw [map_fst_removeKey]
      exact List.mem_filter.mpr
        ⟨mem_map_fst_of_lookup _ _ _ hf2, by simpa using hne⟩
    have hemp : ¬ ((fs.removeFile (deletePathOf cwd fp1)).dirEntries
        (deletePathOf cwd fp1).dropLast).isEmpty = true := by
      intro he
      rw [List.isEmpty_iff] at he
      rw [he] at hp2mem
      simp at hp2mem
    have hdel : (delete_file cwd fs ⟨appJson, [(nameKey, fp1)]⟩).1
        = fs.removeFile (deletePathOf cwd fp1) := by
      rw [delete_file_present cwd fs fp1 d1 hf1, if_neg hemp]
    rw [hdel]
    have hrd : (fs.removeFile (deletePathOf cwd fp1)).readFile
        (downloadPathOf cwd fp2) = some d2 := by
      rw [FS.readFile_removeFile_ne _ _ _ hne]
      exact hf2
    constructor
    · exact hdir
    · rw [download_file, if_pos (Or.inl (by simp [FS.isFile, hrd])), hrd]

theorem c6_shard_reclamation_w :
    ¬ (delete_file [] fsOneBlob ⟨appJson, [(nameKey, "ab".data)]⟩).1.pathExists
        (deletePathOf [] "ab".data).dropLast
    ∧ ((delete_file [] fsTwoBlobs ⟨appJson, [(nameKey, "ab".data)]⟩).1.isDir
        (deletePathOf [] "ab".data).dropLast
      ∧ download_file []
          (delete_file [] fsTwoBlobs ⟨appJson, [(nameKey, "ab".data)]⟩).1
          "abc".data = Resp.file (some [2])) :=
  ⟨c6_shard_reclamation.1 [] "ab".data fsOneBlob [1]
      (by decide) (by decide) (by decide),
   c6_shard_reclamation.2 [] "ab".data "abc".data fsTwoBlobs [1] [2]
      (by decide) (by decide) (by decide) (by decide) (by decide)⟩

/-- C7: the concrete scenario. Uploading `b"hello"` into an empty root
returns the fingerprint 5d41402abc4b2a76b9719d911017c592 (the MD5 hex
digest of "hello") and stores the payload at
`store/5d/5d41402abc4b2a76b9719d911017c592`; a get of that fingerprint
serves `b"hello"`; a delete of it answers 200 Ok and removes the
now-empty `5d` shard directory. -/
theorem c7_hello_scenario :
    upload_file [] tmpNameA FS.empty helloBytes
      = Except.ok (fsAfterHello, helloHash)
    ∧ md5hex helloBytes = helloHash
    ∧ fsAfterHello.readFile ["store".data, "5d".data, helloHash]
      = some helloBytes
    ∧ download_file [] fsAfterHello helloHash = Resp.file (some helloBytes)
    ∧ delete_file [] fsAfterHello ⟨appJson, [(nameKey, helloHash)]⟩
      = (⟨[], [["store".data]]⟩,
         Resp.json jsonOkStatus (removedDesc helloHash))
    ∧ ¬ (FS.mk [] [["store".data]]).isDir ["store".data, "5d".data] :=
  ⟨rfl, by decide, by decide, by decide, by decide, by decide⟩
